import Mathlib

/-!
Verification development for the script-runway extension
(`src/extension.ts`). The definitions below are a shallow embedding of the
data model and operations of the source file: source registry, script
discovery (package manifests, Makefile targets, file scripts), command
resolution, and the run-state tracker that reacts to terminal events.

Conventions of the embedding:
- the filesystem is a passed-in snapshot (`Fs`), since every discovery
  function of the source reads the disk afresh on each call;
- JSON parsing of a manifest is modelled as the already-parsed structure
  wrapped in `Option` (`none` models a thrown parse/read error);
- JavaScript `Map` / `Set` objects are association lists / lists of keys;
- execution handles (`vscode.TerminalShellExecution` object identity) are
  natural numbers compared for equality;
- paths are plain strings with a simplified `/`-based join/split model.
-/

namespace Runway

/-! ## Path helpers (model of the node `path` module calls used) -/

def pathJoin (a b : String) : String := a ++ "/" ++ b

def pathSegments (p : String) : List String := p.splitOn "/"

def pathBasename (p : String) : String := (pathSegments p).getLastD ""

def pathDirname (p : String) : String :=
  String.intercalate "/" (pathSegments p).dropLast

/-- Model of `path.extname`: the suffix of the basename from its last dot,
the empty string when there is no dot or the only dot is the leading one. -/
def pathExtname (p : String) : String :=
  let base := pathBasename p
  match base.splitOn "." with
  | [] => ""
  | [_] => ""
  | ["", _] => ""
  | parts => "." ++ parts.getLastD ""

/-! ## Package manifest data model

A manifest file understood as structured data; `none` in `readPkg` below
models an unreadable or unparsable file (the source wraps every read in
try/catch). `scripts := none` models a manifest without a scripts object. -/

inductive PM where
  | npm | pnpm | yarn | bun
deriving DecidableEq, Repr

def pmToString : PM → String
  | .npm => "npm"
  | .pnpm => "pnpm"
  | .yarn => "yarn"
  | .bun => "bun"

structure Pkg where
  name : Option String
  scripts : Option (List (String × String))
  packageManager : Option String
deriving DecidableEq, Repr

/-- Filesystem snapshot: everything the discovery code reads from disk.
`readPkg` models `JSON.parse(fs.readFileSync(p))` on a manifest path,
`readFile` models `fs.readFileSync` on a text file, `fileExists` models
`fs.existsSync` on a file, `readdir` models `fs.existsSync` plus
`fs.readdirSync` on a directory (`none` = missing), and `display` models
the workspace-relative `displayPath` rendering, a fixed function of the
workspace configuration. -/
structure Fs where
  readPkg : String → Option Pkg
  readFile : String → Option String
  fileExists : String → Bool
  readdir : String → Option (List String)
  display : String → String

/-! ## Word-boundary regex tests used by `inferPMFromScripts`

The source tests the combined lifecycle script text against
regular expressions with word boundaries. A word char is `[A-Za-z0-9_]`.
`scanWord w needWs prev cs` is true when `w` occurs in `cs` preceded by a
non-word character (or the string start) and followed, when `needWs` is
false, by a non-word character or the end, and, when `needWs` is true, by
a whitespace character. -/

def isWordChar (c : Char) : Bool := c.isAlphanum || c == '_'

def wsChar (c : Char) : Bool :=
  c == ' ' || c == '\t' || c == '\n' || c == '\r' || c == '\x0b' || c == '\x0c'

def listStartsWith : List Char → List Char → Option (List Char)
  | [], cs => some cs
  | _ :: _, [] => none
  | w :: ws, c :: cs => if c == w then listStartsWith ws cs else none

def boundaryAfter : List Char → Bool
  | [] => true
  | c :: _ => !(isWordChar c)

def headIsWs : List Char → Bool
  | [] => false
  | c :: _ => wsChar c

def boundaryBefore : Option Char → Bool
  | none => true
  | some c => !(isWordChar c)

def scanWord (w : List Char) (needWs : Bool) (prev : Option Char) :
    List Char → Bool
  | [] => false
  | c :: r =>
    (boundaryBefore prev &&
      (match listStartsWith w (c :: r) with
       | some rest => if needWs then headIsWs rest else boundaryAfter rest
       | none => false))
    || scanWord w needWs (some c) r

/-- Model of `String.startsWith`, computed structurally on the character
lists. -/
def strStartsWith (s pre : String) : Bool :=
  (listStartsWith pre.data s.data).isSome

def hasWord (w : String) (s : String) : Bool :=
  scanWord w.data false none s.data

def hasWordThenWs (w : String) (s : String) : Bool :=
  scanWord w.data true none s.data

/-! ## Package manager detection -/

/-- Embedding of `inferPMFromScripts`: joins the values of the four
canonical lifecycle scripts (skipping absent or empty ones, mirroring JS
truthiness) with newlines and tests manager patterns in specificity
order. -/
def inferPMFromScripts (scripts : List (String × String)) : Option PM :=
  let lifecycle := ["start", "dev", "build", "run"]
  let combined := String.intercalate "\n"
    (lifecycle.filterMap (fun k =>
      match scripts.lookup k with
      | some v => if v == "" then none else some v
      | none => none))
  if hasWord "pnpm" combined then some PM.pnpm
  else if hasWord "bunx" combined || hasWordThenWs "bun" combined then some PM.bun
  else if hasWord "yarn" combined then some PM.yarn
  else if hasWord "npx" combined then some PM.npm
  else none

/-- Embedding of `detectPM`: explicit `packageManager` field (only the
`pnpm` / `yarn` / `bun` prefixes are recognized), then the four lock
files, then lifecycle-script inference, defaulting to npm. When the
manifest itself cannot be read or parsed the whole try block is skipped
and the result is npm without consulting lock files. -/
def detectPM (fs : Fs) (pkgDir : String) : PM :=
  match fs.readPkg (pathJoin pkgDir "package.json") with
  | none => PM.npm
  | some pkg =>
    let lockStep : PM :=
      if fs.fileExists (pathJoin pkgDir "pnpm-lock.yaml") then PM.pnpm
      else if fs.fileExists (pathJoin pkgDir "bun.lockb") then PM.bun
      else if fs.fileExists (pathJoin pkgDir "yarn.lock") then PM.yarn
      else if fs.fileExists (pathJoin pkgDir "package-lock.json") then PM.npm
      else
        match pkg.scripts with
        | some scr =>
          match inferPMFromScripts scr with
          | some m => m
          | none => PM.npm
        | none => PM.npm
    match pkg.packageManager with
    | some s =>
      if strStartsWith s "pnpm" then PM.pnpm
      else if strStartsWith s "yarn" then PM.yarn
      else if strStartsWith s "bun" then PM.bun
      else lockStep
    | none => lockStep

/-! ## Makefile target parser

The source extracts targets with the global multiline regex
matching, at a line start, one `[a-zA-Z0-9]` character, then a run of
`[a-zA-Z0-9_.-]`, then a run of whitespace, then a colon; the identifier
is the captured group. Because the three character classes and the colon
are pairwise disjoint, greedy maximal munch without backtracking is the
exact regex semantics, and `matchAll` resumes scanning right after the
consumed colon. `scanAux` performs that scan; its fuel argument is the
remaining string length (each step consumes at least one character). -/

def identStart (c : Char) : Bool := c.isAlphanum

def identCont (c : Char) : Bool :=
  c.isAlphanum || c == '_' || c == '.' || c == '-'

/-- Try to match `identifier \s* :` at the head of the character list;
on success return the identifier and the rest after the colon. -/
def matchTarget : List Char → Option (String × List Char)
  | [] => none
  | c :: rest =>
    if identStart c then
      let ident : List Char := c :: rest.takeWhile identCont
      let after := (rest.dropWhile identCont).dropWhile wsChar
      match after with
      | ':' :: r => some (⟨ident⟩, r)
      | _ => none
    else none

/-- Scan for all regex matches; `atLS` records whether the current
position is a line start (start of input or just after a line
terminator), where the multiline `^` anchor can match. -/
def scanAux : Nat → Bool → List Char → List String
  | 0, _, _ => []
  | _, _, [] => []
  | fuel + 1, atLS, c :: rest =>
    if atLS then
      match matchTarget (c :: rest) with
      | some (t, r) => t :: scanAux fuel false r
      | none => scanAux fuel ((c == '\n') || (c == '\r')) rest
    else scanAux fuel ((c == '\n') || (c == '\r')) rest

/-- All (possibly duplicated) regex matches of the target pattern, in
text order. -/
def rawTargets (content : String) : List String :=
  scanAux content.data.length true content.data

/-- The seen-set deduplication loop of `parseMakeTargets`. -/
def dedupeAux (seen : List String) : List String → List String
  | [] => []
  | t :: ts =>
    if seen.contains t then dedupeAux seen ts
    else t :: dedupeAux (t :: seen) ts

/-- Embedding of `parseMakeTargets` applied to already-read file content:
all matches of the target pattern, duplicates removed keeping the first
occurrence. -/
def parseMakeTargets (content : String) : List String :=
  dedupeAux [] (rawTargets content)

/-- Embedding of `parseMakeTargets` on a path: the source reads the file
inside try/catch and returns `[]` on any read error. -/
def parseMakeFile (fs : Fs) (p : String) : List String :=
  match fs.readFile p with
  | some content => parseMakeTargets content
  | none => []

/-- Declarative first-occurrence deduplication, used to state what the
seen-set loop computes: keep each element the first time it appears and
drop all its later occurrences. -/
def dedupFirst : List String → List String
  | [] => []
  | x :: xs => x :: dedupFirst (xs.filter (fun y => !(y == x)))
termination_by l => l.length
decreasing_by
  exact Nat.lt_succ_of_le (List.length_filter_le _ _)

/-! ## Source registry -/

inductive SourceType where
  | packageJson | directory | file
deriving DecidableEq, Repr

structure Source where
  type : SourceType
  path : String
deriving DecidableEq, Repr

/-- Embedding of `SourceStore.add`: refuse (returning false and the list
unchanged) when an identical `(type, path)` pair is already stored,
otherwise append and return true. -/
def addSource (l : List Source) (s : Source) : Bool × List Source :=
  if l.any (fun t => decide (t.path = s.path) && decide (t.type = s.type))
  then (false, l)
  else (true, l ++ [s])

/-- Embedding of `SourceStore.remove`: keep every source whose path
differs from the given one, regardless of type. -/
def removeSource (l : List Source) (p : String) : List Source :=
  l.filter (fun s => !(decide (s.path = p)))

/-! ## Override / label stores and command resolution -/

/-- Embedding of `ScriptStore.get` on the persisted identity-keyed map. -/
def storeGet (m : List (String × String)) (id : String) : Option String :=
  m.lookup id

/-- Command resolution as performed at every run site of the source:
`override ?? defaultCommand`. -/
def resolveCommand (m : List (String × String)) (id : String)
    (defaultCommand : String) : String :=
  (storeGet m id).getD defaultCommand

/-! ## Script tree data model -/

inductive ScriptKind where
  | packageGroup | npmScript | makeGroup | makeTarget | fileCategory | fileScript
deriving DecidableEq, Repr

/-- Embedding of the `Script` interface; absent optional fields are
`none`, matching `undefined`. -/
structure Script where
  kind : ScriptKind
  label : String
  id : Option String := none
  defaultCommand : Option String := none
  cwd : Option String := none
  filePath : Option String := none
  iconFile : Option String := none
  sourcePath : Option String := none
  pm : Option PM := none
  categoryKind : Option String := none
  description : Option String := none
deriving DecidableEq, Repr

/-- Embedding of a `FileScriptType` registry entry. The boilerplate
template field is omitted: it is only consumed by the new-script creation
command, which is outside the modelled operations. -/
structure FileScriptType where
  kind : String
  label : String
  extensions : List String
  iconFile : String
  fileIconFile : Option String := none
  makeCommand : String → String

def FILE_SCRIPT_TYPES : List FileScriptType := [
  { kind := "shell", label := "Shell Scripts",
    extensions := [".sh", ".bash", ".zsh"], iconFile := "shell.svg",
    fileIconFile := some "emoji-shell.svg",
    makeCommand := fun f => "bash \"" ++ f ++ "\"" },
  { kind := "python", label := "Python Scripts",
    extensions := [".py"], iconFile := "python.svg",
    makeCommand := fun f => "python3 \"" ++ f ++ "\"" },
  { kind := "javascript", label := "JavaScript Scripts",
    extensions := [".js", ".mjs", ".cjs"], iconFile := "js.svg",
    makeCommand := fun f => "node \"" ++ f ++ "\"" },
  { kind := "typescript", label := "TypeScript Scripts",
    extensions := [".ts"], iconFile := "ts.svg",
    makeCommand := fun f => "npx tsx \"" ++ f ++ "\"" },
  { kind := "ruby", label := "Ruby Scripts",
    extensions := [".rb"], iconFile := "ruby.svg",
    makeCommand := fun f => "ruby \"" ++ f ++ "\"" },
  { kind := "php", label := "PHP Scripts",
    extensions := [".php"], iconFile := "php.svg",
    makeCommand := fun f => "php \"" ++ f ++ "\"" },
  { kind := "perl", label := "Perl Scripts",
    extensions := [".pl"], iconFile := "perl.svg",
    makeCommand := fun f => "perl \"" ++ f ++ "\"" },
  { kind := "powershell", label := "PowerShell Scripts",
    extensions := [".ps1"], iconFile := "powershell.svg",
    makeCommand := fun f => "pwsh \"" ++ f ++ "\"" },
  { kind := "go", label := "Go Scripts",
    extensions := [".go"], iconFile := "go.svg",
    makeCommand := fun f => "go run \"" ++ f ++ "\"" },
  { kind := "swift", label := "Swift Scripts",
    extensions := [".swift"], iconFile := "swift.svg",
    makeCommand := fun f => "swift \"" ++ f ++ "\"" },
  { kind := "makefile", label := "Makefile",
    extensions := [], iconFile := "makefile.svg",
    makeCommand := fun target => "make " ++ target }
]

/-! ## Discovery: package groups -/

def pmIconFile : PM → String
  | .pnpm => "pnpm.svg"
  | .yarn => "yarn.svg"
  | .bun => "bun.svg"
  | .npm => "npm.svg"

/-- Embedding of `ScriptProvider.packageGroupItem`: parse the manifest,
emit nothing when it is unreadable or has no (or an empty) scripts map,
otherwise build the group with the detected package manager and the
manifest name (falling back, through JS falsiness, to the directory
basename when the name is absent or empty). -/
def packageGroupItem (fs : Fs) (pkgPath : String) : Option Script :=
  match fs.readPkg pkgPath with
  | none => none
  | some pkg =>
    match pkg.scripts with
    | none => none
    | some scr =>
      if scr.isEmpty then none
      else
        let dir := pathDirname pkgPath
        let pm := detectPM fs dir
        let appName :=
          match pkg.name with
          | some n => if n = "" then pathBasename dir else n
          | none => pathBasename dir
        some { kind := .packageGroup, label := appName,
               filePath := some pkgPath, cwd := some dir,
               sourcePath := some pkgPath, pm := some pm,
               iconFile := some (pmIconFile pm) }

/-- Embedding of `ScriptProvider.npmScripts`: one child per entry of the
scripts map, with identity `npm:<manifestPath>:<name>` (literal `npm:`
prefix whatever the detected manager) and default command
`<pm> run <name>`. -/
def npmScripts (fs : Fs) (group : Script) : List Script :=
  match group.filePath with
  | none => []
  | some fp =>
    match fs.readPkg fp with
    | none => []
    | some pkg =>
      let pm := group.pm.getD PM.npm
      (pkg.scripts.getD []).map (fun nc =>
        { kind := .npmScript, label := nc.1,
          id := some ("npm:" ++ fp ++ ":" ++ nc.1),
          defaultCommand := some (pmToString pm ++ " run " ++ nc.1),
          cwd := group.cwd, filePath := some fp,
          description := some nc.2 })

/-! ## Discovery: Makefile groups -/

/-- The probe loop of `ScriptProvider.roots` over the three canonical
filenames. A missing file continues to the next name; an existing file
with zero parsed targets hits the bare `break` of the source and ends the
probe with no group; an existing file with targets yields the group. -/
def makeProbe (fs : Fs) (dirPath : String) : List String → Option Script
  | [] => none
  | n :: rest =>
    let mkPath := pathJoin dirPath n
    if !(fs.fileExists mkPath) then makeProbe fs dirPath rest
    else if (parseMakeFile fs mkPath).isEmpty then none
    else some { kind := .makeGroup, label := fs.display dirPath,
                filePath := some mkPath, cwd := some dirPath,
                sourcePath := some dirPath }

def makeGroupFor (fs : Fs) (dirPath : String) : Option Script :=
  makeProbe fs dirPath ["Makefile", "makefile", "GNUmakefile"]

/-- Embedding of `ScriptProvider.makeTargets`. -/
def makeTargets (fs : Fs) (group : Script) : List Script :=
  match group.filePath with
  | none => []
  | some fp =>
    (parseMakeFile fs fp).map (fun target =>
      { kind := .makeTarget, label := target,
        id := some ("make:" ++ fp ++ ":" ++ target),
        defaultCommand := some ("make " ++ target),
        cwd := group.cwd, filePath := some fp })

/-! ## Discovery: file-type categories -/

def dirHasType (fs : Fs) (t : FileScriptType) (p : String) : Bool :=
  match fs.readdir p with
  | some files => files.any (fun f => t.extensions.contains (pathExtname f))
  | none => false

/-- Embedding of `ScriptProvider.fileCategoryHeaders`: one category per
registered type with a nonempty extension list that matches at least one
directory listing entry or one file source. -/
def fileCategoryHeaders (fs : Fs) (sources : List Source) : List Script :=
  let dirSources := sources.filter (fun s => decide (s.type = SourceType.directory))
  let fileSources := sources.filter (fun s => decide (s.type = SourceType.file))
  (FILE_SCRIPT_TYPES.filter (fun t =>
    !t.extensions.isEmpty &&
    (dirSources.any (fun s => dirHasType fs t s.path) ||
     fileSources.any (fun s => t.extensions.contains (pathExtname s.path))))).map
    (fun t => { kind := .fileCategory, label := t.label,
                iconFile := some t.iconFile, categoryKind := some t.kind })

def fileScriptItem (fs : Fs) (absPath cwd : String) (t : FileScriptType)
    (filename : String) : Script :=
  { kind := .fileScript, label := fs.display absPath,
    id := some ("file:" ++ absPath),
    defaultCommand := some (t.makeCommand filename),
    cwd := some cwd, filePath := some absPath,
    sourcePath := some absPath, iconFile := t.fileIconFile }

/-- Stable ascending insertion of a filename, modelling the JS
lexicographic `sort()` on the filtered directory listing. -/
def insertSorted (f : String) : List String → List String
  | [] => [f]
  | g :: gs => if decide (f < g) then f :: g :: gs else g :: insertSorted f gs

def sortStrings (l : List String) : List String :=
  l.foldr insertSorted []

/-- The candidate file scripts of one category, in source-traversal
order, before deduplication: directory listings filtered by extension and
sorted, then individual file sources. Each candidate carries
`(absolutePath, workingDirectory, filename)`. -/
def fcCandidates (fs : Fs) (t : FileScriptType) (sources : List Source) :
    List (String × String × String) :=
  ((sources.filter (fun s => decide (s.type = SourceType.directory))).flatMap
    (fun src =>
      match fs.readdir src.path with
      | none => []
      | some files =>
        (sortStrings (files.filter
          (fun f => t.extensions.contains (pathExtname f)))).map
          (fun f => (pathJoin src.path f, src.path, f))))
  ++ ((sources.filter (fun s =>
        decide (s.type = SourceType.file) &&
        t.extensions.contains (pathExtname s.path))).map
      (fun s => (s.path, pathDirname s.path, pathBasename s.path)))

/-- Embedding of `ScriptProvider.fileCategoryChildren`: the candidates of
the category type, deduplicated by absolute path with a seen set. -/
def fileCategoryChildren (fs : Fs) (sources : List Source) (cat : Script) :
    List Script :=
  match cat.categoryKind with
  | none => []
  | some ck =>
    match FILE_SCRIPT_TYPES.find? (fun t => decide (t.kind = ck)) with
    | none => []
    | some t =>
      (fcCandidates fs t sources).foldl
        (fun acc c =>
          if acc.1.contains c.1 then acc
          else (c.1 :: acc.1,
                acc.2 ++ [fileScriptItem fs c.1 c.2.1 t c.2.2]))
        (([] : List String), ([] : List Script))
      |>.2

/-! ## Discovery: roots and the full tree -/

/-- Embedding of `ScriptProvider.roots`: package groups from manifest
sources, Makefile groups from directory sources, then the file-type
category headers. -/
def roots (fs : Fs) (sources : List Source) : List Script :=
  ((sources.filter (fun s => decide (s.type = SourceType.packageJson))).filterMap
    (fun s => packageGroupItem fs s.path))
  ++ ((sources.filter (fun s => decide (s.type = SourceType.directory))).filterMap
    (fun s => makeGroupFor fs s.path))
  ++ fileCategoryHeaders fs sources

/-- Embedding of `ScriptProvider.getChildren` on a non-root item. -/
def childrenOf (fs : Fs) (sources : List Source) (s : Script) : List Script :=
  match s.kind with
  | .packageGroup => npmScripts fs s
  | .makeGroup => makeTargets fs s
  | .fileCategory => fileCategoryChildren fs sources s
  | _ => []

/-- One full discovery pass: the root items paired with their children,
exactly what one expansion of the whole tree reads. -/
def discoverAll (fs : Fs) (sources : List Source) :
    List (Script × List Script) :=
  (roots fs sources).map (fun r => (r, childrenOf fs sources r))

/-! ## Run state tracker

The mutable state of the activation closure: the `runningTerminals` set,
the `pendingCommands` map (terminal name to queued command) and the
`trackedExecutions` map (terminal name to shell-execution handle, with
object identity of `TerminalShellExecution` modelled as a `Nat`). Each
event handler of the source becomes a function on this state; a handler
that dispatches a command additionally returns the dispatched command
string (`none` when nothing was dispatched). -/

structure RunState where
  running : List String
  pending : List (String × String)
  tracked : List (String × Nat)
deriving DecidableEq, Repr

def setAdd (name : String) (l : List String) : List String :=
  if l.contains name then l else l ++ [name]

def setDel (name : String) (l : List String) : List String :=
  l.filter (fun x => !(x == name))

def mapSet (k : String) (v : α) (m : List (String × α)) : List (String × α) :=
  (k, v) :: m.filter (fun p => !(p.1 == k))

def mapDel (k : String) (m : List (String × α)) : List (String × α) :=
  m.filter (fun p => !(p.1 == k))

/-- Embedding of `markRunning` (decoration firing and tree refresh are
presentation effects outside the state). -/
def markRunning (name : String) (st : RunState) : RunState :=
  { st with running := setAdd name st.running }

/-- Embedding of `markStopped`. -/
def markStopped (name : String) (st : RunState) : RunState :=
  { st with running := setDel name st.running }

/-- Embedding of the `onDidCloseTerminal` handler. -/
def onCloseTerminal (name : String) (st : RunState) : RunState :=
  markStopped name { st with pending := mapDel name st.pending,
                             tracked := mapDel name st.tracked }

/-- Embedding of the `onDidChangeTerminalShellIntegration` handler: when
a command is queued for the terminal, consume it, dispatch it through the
shell-integration capability and record the resulting execution handle. -/
def onShellIntegration (name : String) (handle : Nat) (st : RunState) :
    RunState × Option String :=
  match st.pending.lookup name with
  | some cmd =>
    ({ st with pending := mapDel name st.pending,
               tracked := mapSet name handle st.tracked }, some cmd)
  | none => (st, none)

/-- Embedding of the `onDidEndTerminalShellExecution` handler: only a
completion event whose execution handle equals the recorded one clears
the tracked handle and the running mark. -/
def onEndShellExecution (name : String) (handle : Nat) (st : RunState) :
    RunState :=
  if st.tracked.lookup name = some handle then
    markStopped name { st with tracked := mapDel name st.tracked }
  else st

/-- Queueing a command for a terminal awaiting capability, as performed
by both branches of `runInTerminal` that call `pendingCommands.set`. -/
def queuePending (name cmd : String) (st : RunState) : RunState :=
  { st with pending := mapSet name cmd st.pending }

/-- The guard shared by both 3-second fallback timers of `runInTerminal`:
dispatch the command by raw `sendText` and clear the entry only when the
pending entry for the name still equals the command that started the
timer. -/
def gracePendingStep (name cmd : String) (pending : List (String × String)) :
    List (String × String) × Option String :=
  if pending.lookup name = some cmd then (mapDel name pending, some cmd)
  else (pending, none)

/-- The fallback timer of the fresh-terminal branch of `runInTerminal`
(it does not touch the running set: `onDidOpenTerminal` already marked
the new terminal running). -/
def graceFireNew (name cmd : String) (st : RunState) :
    RunState × Option String :=
  let s := gracePendingStep name cmd st.pending
  ({ st with pending := s.1 }, s.2)

/-- The fallback timer of the existing-terminal branch of
`runInTerminal`, which additionally calls `onStart` (`markRunning`) when
it fires, whether or not it dispatched. -/
def graceFireExisting (name cmd : String) (st : RunState) :
    RunState × Option String :=
  let s := gracePendingStep name cmd st.pending
  (markRunning name { st with pending := s.1 }, s.2)

/-- Embedding of the state mutation of the explicit stop action (both
the `runway.stop` command handler and the double-click stop path):
`terminal.sendText` of the interrupt byte is an external effect; the only
state change is `markStopped`. -/
def stopScript (name : String) (st : RunState) : RunState :=
  markStopped name st

/-! ## Helper lemmas about the map and set operations -/

theorem lookup_mapDel (k : String) (m : List (String × α)) :
    (mapDel k m).lookup k = none := by
  rw [List.lookup_eq_none_iff]
  intro p hp
  have hne := (List.mem_filter.mp hp).2
  simp only [Bool.not_eq_eq_eq_not, Bool.not_true, beq_eq_false_iff_ne] at hne
  simpa [bne_iff_ne] using fun hh => hne hh.symm

theorem lookup_mapSet (k : String) (v : α) (m : List (String × α)) :
    (mapSet k v m).lookup k = some v := by
  simp [mapSet, List.lookup_cons]

theorem not_mem_setDel (name : String) (l : List String) :
    name ∉ setDel name l := by
  simp [setDel, List.mem_filter]

/-! ## Lemmas relating the deduplication loop to its declarative form -/

theorem dedupeAux_eq_dedupFirst (l : List String) :
    ∀ seen, dedupeAux seen l = dedupFirst (l.filter (fun y => !(seen.contains y))) := by
  induction l with
  | nil => intro seen; simp [dedupeAux, dedupFirst]
  | cons t ts ih =>
    intro seen
    by_cases h : seen.contains t = true
    · conv_lhs => simp only [dedupeAux]
      rw [if_pos h, List.filter_cons, if_neg (by simpa using h), ih seen]
    · have hb : seen.contains t = false := by simpa using h
      conv_lhs => simp only [dedupeAux]
      rw [if_neg h, List.filter_cons, if_pos (by simpa using hb)]
      conv_rhs => simp only [dedupFirst]
      congr 1
      rw [ih (t :: seen)]
      congr 1
      rw [List.filter_filter]
      apply List.filter_congr
      intro y _
      simp only [List.contains_cons, Bool.not_or, beq_eq_decide]

theorem dedupeAux_nodup (l : List String) :
    ∀ seen, (dedupeAux seen l).Nodup
      ∧ ∀ x ∈ dedupeAux seen l, seen.contains x = false := by
  induction l with
  | nil => intro seen; exact ⟨List.nodup_nil, by simp [dedupeAux]⟩
  | cons t ts ih =>
    intro seen
    by_cases h : seen.contains t = true
    · have e : dedupeAux seen (t :: ts) = dedupeAux seen ts := by
        conv_lhs => simp only [dedupeAux]
        rw [if_pos h]
      rw [e]
      exact ih seen
    · have hb : seen.contains t = false := by simpa using h
      have e : dedupeAux seen (t :: ts) = t :: dedupeAux (t :: seen) ts := by
        conv_lhs => simp only [dedupeAux]
        rw [if_neg h]
      rw [e]
      obtain ⟨hnd, hmem⟩ := ih (t :: seen)
      refine ⟨List.nodup_cons.mpr ⟨?_, hnd⟩, ?_⟩
      · intro hx
        have := hmem t hx
        simp [List.contains_cons] at this
      · intro x hx
        rcases List.mem_cons.mp hx with hx1 | hx2
        · rw [hx1]; exact hb
        · have := hmem x hx2
          simp only [List.contains_cons, Bool.or_eq_false_iff] at this
          exact this.2

/-! ## Claim C1 : package manager resolution priority -/

/-- Filesystem with a manifest whose explicit `packageManager` field names
npm (`npm@9.0.0`) while a `pnpm-lock.yaml` is present in the same
directory. -/
def fsC1 : Fs :=
  { readPkg := fun p =>
      if p = "/proj/package.json"
      then some { name := some "app", scripts := some [("dev", "vite")],
                  packageManager := some "npm@9.0.0" }
      else none,
    readFile := fun _ => none,
    fileExists := fun p => p == "/proj/pnpm-lock.yaml",
    readdir := fun _ => none,
    display := fun p => p }

/-- C1 counterexample: the claim says an explicit manager field that names
a manager always wins over any lock file, so with `packageManager` equal
to `npm@9.0.0` and a `pnpm-lock.yaml` present the result should be npm.
The code only recognizes the pnpm, yarn and bun prefixes in the field, so
the npm field is ignored and the pnpm lock file wins: the detector
returns pnpm, not npm. -/
theorem detectPM_explicit_npm_ignored_cx :
    fsC1.readPkg (pathJoin "/proj" "package.json") =
      some { name := some "app", scripts := some [("dev", "vite")],
             packageManager := some "npm@9.0.0" }
    ∧ fsC1.fileExists (pathJoin "/proj" "pnpm-lock.yaml") = true
    ∧ detectPM fsC1 "/proj" = PM.pnpm
    ∧ PM.pnpm ≠ PM.npm := by decide

/-- C1 (amended): for a readable manifest, the package manager is
resolved by, in order: an explicit `packageManager` field naming pnpm,
yarn or bun by prefix (an explicit npm or unrecognized value is ignored
and falls through); otherwise the first present lock file in the order
pnpm-lock.yaml, bun.lockb, yarn.lock, package-lock.json; otherwise
lifecycle-script inference; otherwise npm. -/
theorem detectPM_priority_amended (fs : Fs) (dir : String) (pkg : Pkg)
    (hread : fs.readPkg (pathJoin dir "package.json") = some pkg) :
    (∀ s, pkg.packageManager = some s →
      (strStartsWith s "pnpm" = true → detectPM fs dir = PM.pnpm)
      ∧ (strStartsWith s "pnpm" = false → strStartsWith s "yarn" = true →
          detectPM fs dir = PM.yarn)
      ∧ (strStartsWith s "pnpm" = false → strStartsWith s "yarn" = false →
          strStartsWith s "bun" = true → detectPM fs dir = PM.bun))
    ∧ ((pkg.packageManager = none ∨
        ∃ s, pkg.packageManager = some s
          ∧ strStartsWith s "pnpm" = false ∧ strStartsWith s "yarn" = false
          ∧ strStartsWith s "bun" = false) →
      (fs.fileExists (pathJoin dir "pnpm-lock.yaml") = true →
         detectPM fs dir = PM.pnpm)
      ∧ (fs.fileExists (pathJoin dir "pnpm-lock.yaml") = false →
         fs.fileExists (pathJoin dir "bun.lockb") = true →
         detectPM fs dir = PM.bun)
      ∧ (fs.fileExists (pathJoin dir "pnpm-lock.yaml") = false →
         fs.fileExists (pathJoin dir "bun.lockb") = false →
         fs.fileExists (pathJoin dir "yarn.lock") = true →
         detectPM fs dir = PM.yarn)
      ∧ (fs.fileExists (pathJoin dir "pnpm-lock.yaml") = false →
         fs.fileExists (pathJoin dir "bun.lockb") = false →
         fs.fileExists (pathJoin dir "yarn.lock") = false →
         fs.fileExists (pathJoin dir "package-lock.json") = true →
         detectPM fs dir = PM.npm)
      ∧ (fs.fileExists (pathJoin dir "pnpm-lock.yaml") = false →
         fs.fileExists (pathJoin dir "bun.lockb") = false →
         fs.fileExists (pathJoin dir "yarn.lock") = false →
         fs.fileExists (pathJoin dir "package-lock.json") = false →
         (∀ scr m, pkg.scripts = some scr → inferPMFromScripts scr = some m →
            detectPM fs dir = m)
         ∧ (∀ scr, pkg.scripts = some scr → inferPMFromScripts scr = none →
            detectPM fs dir = PM.npm)
         ∧ (pkg.scripts = none → detectPM fs dir = PM.npm))) := by
  constructor
  · intro s hs
    refine ⟨fun h1 => ?_, fun h1 h2 => ?_, fun h1 h2 h3 => ?_⟩
    · simp [detectPM, hread, hs, h1]
    · simp [detectPM, hread, hs, h1, h2]
    · simp [detectPM, hread, hs, h1, h2, h3]
  · intro hexp
    have key : ∀ (r : PM),
        (if fs.fileExists (pathJoin dir "pnpm-lock.yaml") then PM.pnpm
         else if fs.fileExists (pathJoin dir "bun.lockb") then PM.bun
         else if fs.fileExists (pathJoin dir "yarn.lock") then PM.yarn
         else if fs.fileExists (pathJoin dir "package-lock.json") then PM.npm
         else
           match pkg.scripts with
           | some scr =>
             match inferPMFromScripts scr with
             | some m => m
             | none => PM.npm
           | none => PM.npm) = r → detectPM fs dir = r := by
      intro r hr
      rcases hexp with hnone | ⟨s, hs, h1, h2, h3⟩
      · simp [detectPM, hread, hnone]
        exact hr
      · simp [detectPM, hread, hs, h1, h2, h3]
        exact hr
    refine ⟨fun l1 => key _ ?_, fun l1 l2 => key _ ?_, fun l1 l2 l3 => key _ ?_,
            fun l1 l2 l3 l4 => key _ ?_, fun l1 l2 l3 l4 => ⟨fun scr m hscr hm => key _ ?_,
            fun scr hscr hm => key _ ?_, fun hscr => key _ ?_⟩⟩
    · simp [l1]
    · simp [l1, l2]
    · simp [l1, l2, l3]
    · simp [l1, l2, l3, l4]
    · simp [l1, l2, l3, l4, hscr, hm]
    · simp [l1, l2, l3, l4, hscr, hm]
    · simp [l1, l2, l3, l4, hscr]

/-- Filesystem for the C1 witness: manifest without an explicit manager
field, with only a yarn.lock present. -/
def fsC1w : Fs :=
  { readPkg := fun p =>
      if p = "/w/package.json"
      then some { name := none, scripts := some [("dev", "vite")],
                  packageManager := none }
      else none,
    readFile := fun _ => none,
    fileExists := fun p => p == "/w/yarn.lock",
    readdir := fun _ => none,
    display := fun p => p }

/-- C1 witness: the amended priority theorem applied at a concrete
filesystem where only a yarn.lock is present. -/
theorem detectPM_priority_amended_witness : detectPM fsC1w "/w" = PM.yarn :=
  ((detectPM_priority_amended fsC1w "/w"
      { name := none, scripts := some [("dev", "vite")], packageManager := none }
      (by decide)).2 (Or.inl rfl)).2.2.1 (by decide) (by decide) (by decide)

/-! ## Claim C2 : Makefile probe order -/

/-- Filesystem where `Makefile` exists but parses to zero targets while
`makefile` exists and has one target. -/
def fsC2 : Fs :=
  { readPkg := fun _ => none,
    readFile := fun p =>
      if p = "/d/Makefile" then some "# no targets in this file\n"
      else if p = "/d/makefile" then some "build:\n\techo hi\n"
      else none,
    fileExists := fun p => p == "/d/Makefile" || p == "/d/makefile",
    readdir := fun _ => none,
    display := fun p => p }

/-- C2 counterexample: the claim says that when an earlier-probed
filename exists but parses to zero targets while a later-probed filename
exists and has targets, the later file is used. Here `Makefile` exists
with zero targets and `makefile` exists with target `build`, yet the
probe produces no make group at all: the loop breaks at the first
existing file instead of continuing to the next name. -/
theorem makeProbe_zero_target_break_cx :
    fsC2.fileExists (pathJoin "/d" "Makefile") = true
    ∧ parseMakeFile fsC2 (pathJoin "/d" "Makefile") = []
    ∧ fsC2.fileExists (pathJoin "/d" "makefile") = true
    ∧ parseMakeFile fsC2 (pathJoin "/d" "makefile") = ["build"]
    ∧ makeGroupFor fsC2 "/d" = none := by decide

/-- C2 (amended): for every directory source, Makefile discovery probes
`Makefile`, `makefile`, `GNUmakefile` in order and stops at the first
probed filename that exists on disk; a make group is produced exactly
when that first existing file parses to at least one target, and when it
parses to zero targets no group is produced even if a later-probed
filename exists and has targets. Filenames that do not exist are skipped
in favour of the next one. -/
theorem makeProbe_first_existing_amended (fs : Fs) (dir : String) :
    (fs.fileExists (pathJoin dir "Makefile") = true →
       (parseMakeFile fs (pathJoin dir "Makefile") = [] →
          makeGroupFor fs dir = none)
       ∧ (parseMakeFile fs (pathJoin dir "Makefile") ≠ [] →
          makeGroupFor fs dir = some
            { kind := .makeGroup, label := fs.display dir,
              filePath := some (pathJoin dir "Makefile"),
              cwd := some dir, sourcePath := some dir }))
    ∧ (fs.fileExists (pathJoin dir "Makefile") = false →
       (fs.fileExists (pathJoin dir "makefile") = true →
          (parseMakeFile fs (pathJoin dir "makefile") = [] →
             makeGroupFor fs dir = none)
          ∧ (parseMakeFile fs (pathJoin dir "makefile") ≠ [] →
             makeGroupFor fs dir = some
               { kind := .makeGroup, label := fs.display dir,
                 filePath := some (pathJoin dir "makefile"),
                 cwd := some dir, sourcePath := some dir }))
       ∧ (fs.fileExists (pathJoin dir "makefile") = false →
          (fs.fileExists (pathJoin dir "GNUmakefile") = true →
             (parseMakeFile fs (pathJoin dir "GNUmakefile") = [] →
                makeGroupFor fs dir = none)
             ∧ (parseMakeFile fs (pathJoin dir "GNUmakefile") ≠ [] →
                makeGroupFor fs dir = some
                  { kind := .makeGroup, label := fs.display dir,
                    filePath := some (pathJoin dir "GNUmakefile"),
                    cwd := some dir, sourcePath := some dir }))
          ∧ (fs.fileExists (pathJoin dir "GNUmakefile") = false →
             makeGroupFor fs dir = none))) := by
  refine ⟨fun e1 => ⟨fun hp => ?_, fun hp => ?_⟩,
          fun e1 => ⟨fun e2 => ⟨fun hp => ?_, fun hp => ?_⟩,
          fun e2 => ⟨fun e3 => ⟨fun hp => ?_, fun hp => ?_⟩, fun e3 => ?_⟩⟩⟩ <;>
    simp [makeGroupFor, makeProbe, e1, *, List.isEmpty_iff]

/-- C2 witness: the amended probe theorem applied to the concrete
filesystem of the counterexample, where the first existing file has zero
targets. -/
theorem makeProbe_first_existing_amended_witness :
    makeGroupFor fsC2 "/d" = none :=
  ((makeProbe_first_existing_amended fsC2 "/d").1 (by decide)).1 (by decide)

/-! ## Claim C3 : stale completion events are ignored -/

/-- C3: a completion event never clears running state for an execution
other than its own. When the recorded handle for the terminal name is
`e2`, a completion event carrying a different handle `e1` leaves the
whole state unchanged, and only the event carrying `e2` itself removes
the terminal from the running set and clears the recorded handle. -/
theorem completion_event_handle_match_only
    (st : RunState) (name : String) (e1 e2 : Nat)
    (hrec : st.tracked.lookup name = some e2) :
    (e1 ≠ e2 → onEndShellExecution name e1 st = st)
    ∧ (name ∉ (onEndShellExecution name e2 st).running
       ∧ (onEndShellExecution name e2 st).tracked.lookup name = none) := by
  refine ⟨fun hne => ?_, ?_, ?_⟩
  · have hcond : ¬(st.tracked.lookup name = some e1) := by
      rw [hrec]
      exact fun hh => hne (Option.some_inj.mp hh).symm
    simp [onEndShellExecution, hcond]
  · simp only [onEndShellExecution, hrec, if_pos, markStopped]
    exact not_mem_setDel name st.running
  · simp only [onEndShellExecution, hrec, if_pos, markStopped]
    exact lookup_mapDel name st.tracked

/-- C3 witness: concrete state tracking handle 2 for terminal `t`; a
completion event with handle 1 changes nothing, the event with handle 2
clears the entry. -/
theorem completion_event_handle_match_only_witness :
    (onEndShellExecution "t" 1 ⟨["t"], [], [("t", 2)]⟩ = ⟨["t"], [], [("t", 2)]⟩)
    ∧ "t" ∉ (onEndShellExecution "t" 2 ⟨["t"], [], [("t", 2)]⟩).running
    ∧ (onEndShellExecution "t" 2 ⟨["t"], [], [("t", 2)]⟩).tracked.lookup "t" = none :=
  ⟨(completion_event_handle_match_only ⟨["t"], [], [("t", 2)]⟩ "t" 1 2 (by decide)).1
     (by decide),
   (completion_event_handle_match_only ⟨["t"], [], [("t", 2)]⟩ "t" 1 2 (by decide)).2.1,
   (completion_event_handle_match_only ⟨["t"], [], [("t", 2)]⟩ "t" 1 2 (by decide)).2.2⟩

/-! ## Claim C4 : grace timer dispatch guard -/

/-- C4: when a fallback grace timer fires for a terminal name, the queued
command is dispatched by raw text injection and the pending entry cleared
exactly when the pending entry for that name still equals the command
that started the timer; when the entry was consumed by the capability
path or overwritten by a later queue for the same name (queueing
overwrites: the pending map holds at most one command per name), the
expired timer dispatches nothing and leaves the pending map unchanged.
Both timer variants of `runInTerminal` are covered. -/
theorem grace_timer_guarded_dispatch
    (st : RunState) (name cmd c2 : String) (h2 : Nat) :
    (st.pending.lookup name = some cmd →
       graceFireNew name cmd st =
         ({ st with pending := mapDel name st.pending }, some cmd)
       ∧ graceFireExisting name cmd st =
         (markRunning name { st with pending := mapDel name st.pending }, some cmd))
    ∧ (st.pending.lookup name ≠ some cmd →
       graceFireNew name cmd st = (st, none)
       ∧ (graceFireExisting name cmd st).2 = none
       ∧ (graceFireExisting name cmd st).1.pending = st.pending)
    ∧ (st.pending.lookup name = some cmd →
       (graceFireNew name cmd ((onShellIntegration name h2 st).1)).2 = none)
    ∧ (queuePending name c2 st).pending.lookup name = some c2 := by
  refine ⟨fun h => ?_, fun h => ?_, fun h => ?_, ?_⟩
  · simp [graceFireNew, graceFireExisting, gracePendingStep, h]
  · simp [graceFireNew, graceFireExisting, gracePendingStep, h, markRunning]
  · simp [onShellIntegration, h, graceFireNew, gracePendingStep, lookup_mapDel]
  · simp [queuePending, lookup_mapSet]

/-- C4 witness: concrete pending maps exercising the matching, the
mismatching and the overwriting cases. -/
theorem grace_timer_guarded_dispatch_witness :
    (graceFireNew "t" "c" ⟨[], [("t", "c")], []⟩ =
       ({ running := [], pending := mapDel "t" [("t", "c")], tracked := [] }, some "c")
     ∧ graceFireExisting "t" "c" ⟨[], [("t", "c")], []⟩ =
       (markRunning "t" { running := [], pending := mapDel "t" [("t", "c")], tracked := [] },
        some "c"))
    ∧ graceFireNew "t" "c" ⟨[], [("t", "other")], []⟩ = (⟨[], [("t", "other")], []⟩, none)
    ∧ (graceFireNew "t" "c" ((onShellIntegration "t" 9 ⟨[], [("t", "c")], []⟩).1)).2 = none
    ∧ (queuePending "t" "c2" ⟨[], [("t", "c")], []⟩).pending.lookup "t" = some "c2" :=
  ⟨(grace_timer_guarded_dispatch ⟨[], [("t", "c")], []⟩ "t" "c" "x" 9).1 (by decide),
   ((grace_timer_guarded_dispatch ⟨[], [("t", "other")], []⟩ "t" "c" "x" 9).2.1
      (by decide)).1,
   (grace_timer_guarded_dispatch ⟨[], [("t", "c")], []⟩ "t" "c" "x" 9).2.2.1 (by decide),
   (grace_timer_guarded_dispatch ⟨[], [("t", "c")], []⟩ "t" "x" "c2" 9).2.2.2⟩

/-! ## Claim C5 : end-to-end pnpm discovery scenario -/

/-- The manifest of the end-to-end scenario. -/
def pkgC5 : Pkg :=
  { name := some "app", scripts := some [("dev", "vite")], packageManager := none }

/-- Filesystem of the end-to-end scenario: the manifest at the given
path (also visible as `package.json` of its directory, as `detectPM`
re-reads it there) and a `pnpm-lock.yaml` in the same directory. -/
def fsC5 (mp : String) : Fs :=
  { readPkg := fun p =>
      if p = mp || p = pathJoin (pathDirname mp) "package.json" then some pkgC5 else none,
    readFile := fun _ => none,
    fileExists := fun p => p == pathJoin (pathDirname mp) "pnpm-lock.yaml",
    readdir := fun _ => none,
    display := fun p => p }

/-- C5: for a manifest named `app` with a single `dev` script and a
`pnpm-lock.yaml` in its directory, discovery produces a package group
labeled `app` with detected manager pnpm, whose `dev` child has identity
exactly `npm:` followed by the manifest path and `:dev` (literal `npm:`
prefix despite the pnpm manager) and default command `pnpm run dev`. -/
theorem package_discovery_end_to_end_pnpm (mp : String) :
    packageGroupItem (fsC5 mp) mp =
      some { kind := .packageGroup, label := "app", filePath := some mp,
             cwd := some (pathDirname mp), sourcePath := some mp,
             pm := some PM.pnpm, iconFile := some "pnpm.svg" }
    ∧ npmScripts (fsC5 mp)
        { kind := .packageGroup, label := "app", filePath := some mp,
          cwd := some (pathDirname mp), sourcePath := some mp,
          pm := some PM.pnpm, iconFile := some "pnpm.svg" } =
      [{ kind := .npmScript, label := "dev",
         id := some ("npm:" ++ mp ++ ":dev"),
         defaultCommand := some "pnpm run dev",
         cwd := some (pathDirname mp), filePath := some mp,
         description := some "vite" }] := by
  have h1 : (fsC5 mp).readPkg mp = some pkgC5 := by simp [fsC5]
  have h2 : detectPM (fsC5 mp) (pathDirname mp) = PM.pnpm := by
    simp [detectPM, fsC5, pkgC5]
  constructor
  · simp [packageGroupItem, h1, h2, pkgC5, pmIconFile]
  · simp [npmScripts, h1, pkgC5, pmToString]
    rw [String.append_assoc]
    exact rfl

/-! ## Claim C6 : Makefile target extraction and deduplication -/

/-- C6: target extraction returns the regex matches (line-start
identifier immediately followed by a colon, optionally after whitespace)
with duplicates removed keeping the first occurrence in text order:
the seen-set loop equals the declarative first-occurrence deduplication
of the raw match list, its output never contains duplicates, and the
file with lines `build:` / tab `touch out` / `build: extra` yields
exactly the single target `build`. -/
theorem parseMakeTargets_dedup_first_occurrence :
    (∀ content : String, parseMakeTargets content = dedupFirst (rawTargets content))
    ∧ (∀ content : String, (parseMakeTargets content).Nodup)
    ∧ parseMakeTargets "build:\n\ttouch out\nbuild: extra" = ["build"] := by
  refine ⟨fun c => ?_, fun c => ?_, by decide⟩
  · rw [parseMakeTargets, dedupeAux_eq_dedupFirst]
    congr 1
    simp
  · exact (dedupeAux_nodup (rawTargets c) []).1

/-! ## Claim C7 : discovery is a deterministic function of its inputs -/

/-- C7: discovery is a pure function of the registry contents and the
filesystem snapshot: two full discovery passes over equal registries and
equal filesystem states produce identical trees — same scripts, same
identities, labels, default commands and ordering. The embedding keeps
no state between passes, matching the source provider, which re-reads
every manifest, Makefile and directory listing on each call and holds no
cache. -/
theorem discovery_deterministic (fs1 fs2 : Fs) (src1 src2 : List Source)
    (hf : fs1 = fs2) (hs : src1 = src2) :
    discoverAll fs1 src1 = discoverAll fs2 src2 := by
  rw [hf, hs]

/-- Empty filesystem used by the C7 witness. -/
def fsC7 : Fs :=
  { readPkg := fun _ => none, readFile := fun _ => none,
    fileExists := fun _ => false, readdir := fun _ => none,
    display := fun p => p }

/-- C7 witness: two passes over the same concrete registry and
filesystem agree. -/
theorem discovery_deterministic_witness :
    discoverAll fsC7 [⟨SourceType.directory, "/d"⟩] =
      discoverAll fsC7 [⟨SourceType.directory, "/d"⟩] :=
  discovery_deterministic fsC7 fsC7 [⟨SourceType.directory, "/d"⟩]
    [⟨SourceType.directory, "/d"⟩] rfl rfl

/-! ## Claim C8 : command resolution -/

/-- C8: command resolution returns the stored override for the identity
when one exists and the default command otherwise; it is a total lookup,
and since the override is keyed by identity, the same override is
returned for any default command — in particular when the default for
that identity changes. -/
theorem resolveCommand_override_precedence
    (m : List (String × String)) (id o d d2 : String) :
    (m.lookup id = some o →
       resolveCommand m id d = o
       ∧ resolveCommand m id d = resolveCommand m id d2)
    ∧ (m.lookup id = none → resolveCommand m id d = d) := by
  constructor
  · intro h
    simp [resolveCommand, storeGet, h]
  · intro h
    simp [resolveCommand, storeGet, h]

/-- C8 witness: a concrete override map with identity `x`. -/
theorem resolveCommand_override_precedence_witness :
    (resolveCommand [("x", "o")] "x" "d1" = "o"
     ∧ resolveCommand [("x", "o")] "x" "d1" = resolveCommand [("x", "o")] "x" "d2")
    ∧ resolveCommand [("x", "o")] "y" "d1" = "d1" :=
  ⟨(resolveCommand_override_precedence [("x", "o")] "x" "o" "d1" "d2").1 (by decide),
   (resolveCommand_override_precedence [("x", "o")] "y" "o" "d1" "d2").2 (by decide)⟩

/-! ## Claim C9 : source registry add and remove -/

/-- C9: registry add returns false and leaves the list unchanged exactly
when an identical `(type, path)` source is already stored; adding the
same source twice leaves one matching entry and the second add returns
false with the list unchanged; remove deletes every source with the
given path regardless of type and is the identity when no source has
that path. -/
theorem sourceStore_add_remove_spec (l : List Source) (s : Source) (p : String) :
    ((addSource l s).1 = false ↔ ∃ t ∈ l, t.path = s.path ∧ t.type = s.type)
    ∧ ((addSource l s).1 = false → (addSource l s).2 = l)
    ∧ ((addSource ((addSource l s).2) s).1 = false
       ∧ (addSource ((addSource l s).2) s).2 = (addSource l s).2)
    ∧ ((¬ ∃ t ∈ l, t.path = s.path ∧ t.type = s.type) →
        ((addSource l s).2.countP
          (fun t => decide (t.path = s.path) && decide (t.type = s.type))) = 1)
    ∧ (∀ t ∈ removeSource l p, t.path ≠ p)
    ∧ (∀ t ∈ l, t.path ≠ p → t ∈ removeSource l p)
    ∧ ((∀ t ∈ l, t.path ≠ p) → removeSource l p = l) := by
  have hiff : ∀ m : List Source,
      (m.any (fun t => decide (t.path = s.path) && decide (t.type = s.type)) = true)
      ↔ ∃ t ∈ m, t.path = s.path ∧ t.type = s.type := by
    intro m
    simp [List.any_eq_true]
  have hrem1 : ∀ t ∈ removeSource l p, t.path ≠ p := by
    intro t ht
    have := (List.mem_filter.mp ht).2
    simpa using this
  have hrem2 : ∀ t ∈ l, t.path ≠ p → t ∈ removeSource l p := by
    intro t ht hne
    exact List.mem_filter.mpr ⟨ht, by simpa using hne⟩
  have hrem3 : (∀ t ∈ l, t.path ≠ p) → removeSource l p = l := by
    intro h
    exact List.filter_eq_self.mpr (fun t ht => by simpa using h t ht)
  by_cases hc : l.any (fun t => decide (t.path = s.path) && decide (t.type = s.type)) = true
  · have hadd : addSource l s = (false, l) := by
      simp only [addSource]
      rw [if_pos hc]
    refine ⟨?_, ?_, ?_, ?_, hrem1, hrem2, hrem3⟩
    · rw [hadd]
      simpa using hiff l |>.mp hc
    · intro _
      rw [hadd]
    · rw [hadd]
      exact ⟨by simp only [addSource]; rw [if_pos hc],
             by simp only [addSource]; rw [if_pos hc]⟩
    · intro h
      exact absurd ((hiff l).mp hc) h
  · have hadd : addSource l s = (true, l ++ [s]) := by
      simp only [addSource]
      rw [if_neg hc]
    have hc2 : (l ++ [s]).any
        (fun t => decide (t.path = s.path) && decide (t.type = s.type)) = true := by
      rw [hiff]
      exact ⟨s, by simp⟩
    refine ⟨?_, ?_, ?_, ?_, hrem1, hrem2, hrem3⟩
    · rw [hadd]
      constructor
      · intro hh
        exact absurd hh (by simp)
      · intro hh
        exact absurd ((hiff l).mpr hh) hc
    · intro hh
      rw [hadd] at hh
      exact absurd hh (by simp)
    · rw [hadd]
      exact ⟨by simp only [addSource]; rw [if_pos hc2],
             by simp only [addSource]; rw [if_pos hc2]⟩
    · intro h
      rw [hadd]
      have hcount0 : l.countP
          (fun t => decide (t.path = s.path) && decide (t.type = s.type)) = 0 := by
        rw [List.countP_eq_zero]
        intro t ht
        simp only [Bool.and_eq_true, decide_eq_true_eq, not_and]
        intro hp htt
        exact h ⟨t, ht, hp, htt⟩
      simp [List.countP_append, hcount0, List.countP_cons]

/-- C9 witness: duplicate add of `(directory, /a)` is refused with the
list unchanged, a fresh add leaves exactly one matching entry, and
removing an absent path is the identity. -/
theorem sourceStore_add_remove_spec_witness :
    (addSource [⟨SourceType.directory, "/a"⟩] ⟨SourceType.directory, "/a"⟩).2
      = [⟨SourceType.directory, "/a"⟩]
    ∧ (addSource ([] : List Source) ⟨SourceType.directory, "/a"⟩).2.countP
        (fun t => decide (t.path = (Source.mk SourceType.directory "/a").path)
          && decide (t.type = (Source.mk SourceType.directory "/a").type)) = 1
    ∧ removeSource [⟨SourceType.directory, "/a"⟩] "/b" = [⟨SourceType.directory, "/a"⟩] :=
  ⟨(sourceStore_add_remove_spec [⟨SourceType.directory, "/a"⟩]
      ⟨SourceType.directory, "/a"⟩ "/b").2.1 (by decide),
   (sourceStore_add_remove_spec [] ⟨SourceType.directory, "/a"⟩ "/b").2.2.2.1 (by simp),
   (sourceStore_add_remove_spec [⟨SourceType.directory, "/a"⟩]
      ⟨SourceType.directory, "/a"⟩ "/b").2.2.2.2.2.2 (by decide)⟩

/-! ## Claim C10 : explicit stop mutates only the running set -/

/-- C10: the explicit stop action removes the terminal name from the
running set and leaves the pending-command and tracked-execution entries
untouched; consequently a command still queued awaiting capability when
the user stopped the script is still dispatched when the
capability-available event or either fallback timer later fires, even
though the script already displays as stopped. -/
theorem stop_action_frame (st : RunState) (name cmd : String) (h2 : Nat) :
    (stopScript name st).pending = st.pending
    ∧ (stopScript name st).tracked = st.tracked
    ∧ name ∉ (stopScript name st).running
    ∧ (st.pending.lookup name = some cmd →
        (onShellIntegration name h2 (stopScript name st)).2 = some cmd
        ∧ (graceFireNew name cmd (stopScript name st)).2 = some cmd
        ∧ (graceFireExisting name cmd (stopScript name st)).2 = some cmd) := by
  refine ⟨rfl, rfl, not_mem_setDel name st.running, fun h => ?_⟩
  simp [onShellIntegration, graceFireNew, graceFireExisting, gracePendingStep,
        stopScript, markStopped, h]

/-- C10 witness: concrete state with a queued command; stopping leaves
pending and tracked intact and the later capability event still
dispatches the queued command. -/
theorem stop_action_frame_witness :
    ((stopScript "t" ⟨["t"], [("t", "c")], [("t", 5)]⟩).pending = [("t", "c")]
     ∧ (stopScript "t" ⟨["t"], [("t", "c")], [("t", 5)]⟩).tracked = [("t", 5)]
     ∧ "t" ∉ (stopScript "t" ⟨["t"], [("t", "c")], [("t", 5)]⟩).running)
    ∧ (onShellIntegration "t" 7 (stopScript "t" ⟨["t"], [("t", "c")], [("t", 5)]⟩)).2
        = some "c" :=
  ⟨⟨(stop_action_frame ⟨["t"], [("t", "c")], [("t", 5)]⟩ "t" "c" 7).1,
    (stop_action_frame ⟨["t"], [("t", "c")], [("t", 5)]⟩ "t" "c" 7).2.1,
    (stop_action_frame ⟨["t"], [("t", "c")], [("t", 5)]⟩ "t" "c" 7).2.2.1⟩,
   ((stop_action_frame ⟨["t"], [("t", "c")], [("t", 5)]⟩ "t" "c" 7).2.2.2 (by decide)).1⟩

end Runway
